import Mathlib

/-!
Verification model of the loan amortization engine of the life-tracker
repository (the loan page component).

The engine lives in the loan page source file: `calculateSchedule` projects a
bi-weekly amortization schedule, the component body reconciles the cleared
ledger into derived values (remaining balance, totals, next payment date), and
`markPaymentCleared` / `makeExtraPayment` / `deletePayment` mutate the
persisted ledger.

Modelling conventions:
* JavaScript numbers are modelled by `ℚ` (exact arithmetic over the source's
  formulas; the source performs no explicit rounding).
* Calendar dates are modelled by `Int` milliseconds since the Unix epoch,
  matching the source's `Date.getTime()` arithmetic (raw millisecond sums,
  no locale or DST adjustment, since `getTime` is UTC based).
* The persisted store is modelled as the list of rows in insertion order;
  a read (`ledgerView`) filters `status = "cleared"` and sorts by
  `payment_date` ascending, as the source's select does.  The sort is a
  stable insertion sort, matching a store that keeps insertion order among
  equal keys.
-/

namespace LifeTracker

/-- `ScheduledPayment` of the source: one projected schedule entry.
The `date` is the entry's calendar date in epoch milliseconds. -/
structure ScheduledPayment where
  date : Int
  amount : ℚ
  interest : ℚ
  principal : ℚ
  balance : ℚ
deriving DecidableEq

/-- `LoanPayment` of the source: one persisted ledger row
(`payment_date`, `amount_paid`, `principal_portion`, `interest_portion`,
`remaining_balance`, `status`).  The opaque `id` plays no role in the
modelled computations and is omitted; deletion is modelled positionally. -/
structure LoanPayment where
  payment_date : Int
  amount_paid : ℚ
  principal_portion : ℚ
  interest_portion : ℚ
  remaining_balance : ℚ
  status : String
deriving DecidableEq

/-- Loan constant `PRINCIPAL = 22000`. -/
def PRINCIPAL : ℚ := 22000

/-- Loan constant `ANNUAL_RATE = 0.05`. -/
def ANNUAL_RATE : ℚ := 5 / 100

/-- Loan constant `BIWEEKLY_RATE = ANNUAL_RATE / 26`. -/
def BIWEEKLY_RATE : ℚ := ANNUAL_RATE / 26

/-- Loan constant `PAYMENT_AMOUNT = 275`. -/
def PAYMENT_AMOUNT : ℚ := 275

/-- `1000 * 60 * 60 * 24` milliseconds in a day, as in the source. -/
def MS_PER_DAY : Int := 1000 * 60 * 60 * 24

/-- `14 * 24 * 60 * 60 * 1000` milliseconds: the bi-weekly period the source
adds to `currentDate` and uses for the next payment date. -/
def PERIOD_MS : Int := 14 * MS_PER_DAY

/-- Loan constant `START_DATE = new Date("2026-03-06")`, i.e. midnight UTC
2026-03-06 = 20518 days after the epoch, in milliseconds. -/
def START_DATE : Int := 1772755200000

/-- The loop of `calculateSchedule`, recursing on the number of remaining
iterations (`count - i`).  Each pass mirrors the source body verbatim:
stop when `balance <= 0`; otherwise compute interest, clamped principal,
payment, the clamped new balance; push the entry; advance the date 14 days. -/
def calcGo (balance : ℚ) (currentDate : Int) : Nat → List ScheduledPayment
  | 0 => []
  | Nat.succ n =>
    if balance ≤ 0 then []
    else
      let interest := balance * BIWEEKLY_RATE
      let principal := min (PAYMENT_AMOUNT - interest) balance
      let payment := interest + principal
      let newBalance := max 0 (balance - principal)
      { date := currentDate, amount := payment, interest := interest,
        principal := principal, balance := newBalance } ::
        calcGo newBalance (currentDate + PERIOD_MS) n

/-- `calculateSchedule(startBalance, startDate, count)` of the source. -/
def calculateSchedule (startBalance : ℚ) (startDate : Int) (count : Nat) :
    List ScheduledPayment :=
  calcGo startBalance startDate count

/-- Placeholder row used only as the `getD` default when an index is known to
be in range (mirrors that the source indexes `[length - 1]` only after a
`length > 0` check). -/
def dummyPayment : LoanPayment :=
  { payment_date := 0, amount_paid := 0, principal_portion := 0,
    interest_portion := 0, remaining_balance := 0, status := "" }

/-- Placeholder scheduled entry for in-range `getD` indexing. -/
def dummyScheduled : ScheduledPayment :=
  { date := 0, amount := 0, interest := 0, principal := 0, balance := 0 }

/-- Derived value `remainingBalance`: the last cleared row's
`remaining_balance`, or `PRINCIPAL` when no payment is cleared. -/
def remainingBalanceOf (ps : List LoanPayment) : ℚ :=
  if 0 < ps.length then (ps.getD (ps.length - 1) dummyPayment).remaining_balance
  else PRINCIPAL

/-- Derived value `totalInterestPaid`: `reduce((sum, p) => sum + p.interest_portion, 0)`. -/
def totalInterestPaidOf (ps : List LoanPayment) : ℚ :=
  ps.foldl (fun sum p => sum + p.interest_portion) 0

/-- Derived value `totalPrincipalPaid`: `reduce((sum, p) => sum + p.principal_portion, 0)`. -/
def totalPrincipalPaidOf (ps : List LoanPayment) : ℚ :=
  ps.foldl (fun sum p => sum + p.principal_portion) 0

/-- Derived value `lastPaymentDate`: the last cleared row's date, or
`START_DATE` minus 14 days when no payment is cleared. -/
def lastPaymentDateOf (ps : List LoanPayment) : Int :=
  if 0 < ps.length then (ps.getD (ps.length - 1) dummyPayment).payment_date
  else START_DATE - PERIOD_MS

/-- Derived value `nextPaymentDate = lastPaymentDate + 14 days`. -/
def nextPaymentDateOf (ps : List LoanPayment) : Int :=
  lastPaymentDateOf ps + PERIOD_MS

/-- Row ordering used by the store's `order("payment_date", ascending)`. -/
def dateLE (a b : LoanPayment) : Prop :=
  a.payment_date ≤ b.payment_date

instance : DecidableRel dateLE :=
  fun a b => inferInstanceAs (Decidable (a.payment_date ≤ b.payment_date))

/-- `loadPayments` read model: filter `status = "cleared"` and sort by
`payment_date` ascending (stable among equal dates). -/
def ledgerView (rows : List LoanPayment) : List LoanPayment :=
  List.insertionSort dateLE (rows.filter (fun p => p.status == "cleared"))

/-- The row inserted by `markPaymentCleared`: the scheduled entry's fields
with `status: "cleared"`. -/
def rowOfScheduled (e : ScheduledPayment) : LoanPayment :=
  { payment_date := e.date, amount_paid := e.amount,
    principal_portion := e.principal, interest_portion := e.interest,
    remaining_balance := e.balance, status := "cleared" }

/-- `upcomingSchedule`: `calculateSchedule(remainingBalance, nextPaymentDate, 20)`
computed from the current ledger view. -/
def upcomingScheduleOf (rows : List LoanPayment) : List ScheduledPayment :=
  calculateSchedule (remainingBalanceOf (ledgerView rows))
    (nextPaymentDateOf (ledgerView rows)) 20

/-- `markPaymentCleared(scheduledPayment)`: the user checks the `k`-th entry of
the rendered upcoming schedule; its row is inserted into the store.  Out of
range means no such checkbox exists, so nothing happens. -/
def markPaymentCleared (rows : List LoanPayment) (k : Nat) : List LoanPayment :=
  match (upcomingScheduleOf rows)[k]? with
  | some e => rows ++ [rowOfScheduled e]
  | none => rows

/-- The amount form field as the source observes it: empty string (falsy),
a non-empty string that `parseFloat` fails to parse (`NaN`), or a parsed
numeric value. -/
inductive AmountField
  | fieldEmpty
  | nonNumeric
  | numeric (a : ℚ)
deriving DecidableEq

/-- The date form field: empty string (falsy) or a parsed calendar date in
epoch milliseconds. -/
inductive DateField
  | fieldEmpty
  | dateValue (d : Int)
deriving DecidableEq

/-- The accrual computation of `makeExtraPayment` (source lines computing
`daysSinceLastPayment`, `interest`, `principal`, `newBalance` and the inserted
row): `Math.floor` of the millisecond difference over a day's milliseconds,
daily simple interest, clamped principal, clamped new balance. -/
def extraPaymentCore (amount : ℚ) (paymentDate lastPaymentDate : Int)
    (currentBalance : ℚ) : LoanPayment :=
  let daysSinceLastPayment : Int :=
    Int.floor (((paymentDate - lastPaymentDate : Int) : ℚ) / (MS_PER_DAY : ℚ))
  let dailyRate := ANNUAL_RATE / 365
  let interest := currentBalance * dailyRate * (daysSinceLastPayment : ℚ)
  let principal := min (amount - interest) currentBalance
  let newBalance := max 0 (currentBalance - principal)
  { payment_date := paymentDate, amount_paid := amount,
    principal_portion := principal, interest_portion := interest,
    remaining_balance := newBalance, status := "cleared" }

/-- `makeExtraPayment`: validation in source order (`!extraAmount || !extraDate`
first with its alert text, then `isNaN(amount) || amount <= 0` with its alert
text), then the accrual computation and the insert.  An `Except.error` is the
alert shown to the user; the store is only touched in the `Except.ok` result. -/
def makeExtraPayment (rows : List LoanPayment) (amountField : AmountField)
    (dateField : DateField) : Except String (List LoanPayment) :=
  match amountField, dateField with
  | AmountField.fieldEmpty, _ => Except.error "Please enter both amount and date"
  | _, DateField.fieldEmpty => Except.error "Please enter both amount and date"
  | AmountField.nonNumeric, _ => Except.error "Please enter a valid amount"
  | AmountField.numeric a, DateField.dateValue d =>
    if a ≤ 0 then Except.error "Please enter a valid amount"
    else
      Except.ok (rows ++ [extraPaymentCore a d
        (lastPaymentDateOf (ledgerView rows))
        (remainingBalanceOf (ledgerView rows))])

/-- `deletePayment(id)`: remove one row from the store (modelled by the row's
position in insertion order). -/
def deletePayment (rows : List LoanPayment) (i : Nat) : List LoanPayment :=
  rows.eraseIdx i

/-- One user-level ledger operation. -/
inductive LedgerOp
  | markCleared (k : Nat)
  | extra (amountField : AmountField) (dateField : DateField)
  | deletePay (i : Nat)
deriving DecidableEq

/-- Apply one operation to the store; a rejected extra payment leaves the
store unchanged (the source returns before any insert). -/
def applyOp (rows : List LoanPayment) : LedgerOp → List LoanPayment
  | LedgerOp.markCleared k => markPaymentCleared rows k
  | LedgerOp.extra a d =>
    match makeExtraPayment rows a d with
    | Except.ok rows2 => rows2
    | Except.error _ => rows
  | LedgerOp.deletePay i => deletePayment rows i

/-- Apply a sequence of operations left to right. -/
def applyTrace (rows : List LoanPayment) : List LedgerOp → List LoanPayment
  | [] => rows
  | op :: ops => applyTrace (applyOp rows op) ops

/-- Side condition on one operation, used by the amended ledger invariant:
an extra payment must not be backdated before the last cleared payment and
its amount must cover the accrued interest.  All other operations are
unrestricted. -/
def opOK (rows : List LoanPayment) : LedgerOp → Bool
  | LedgerOp.extra (AmountField.numeric a) (DateField.dateValue d) =>
    decide (lastPaymentDateOf (ledgerView rows) ≤ d) &&
    decide ((extraPaymentCore a d (lastPaymentDateOf (ledgerView rows))
      (remainingBalanceOf (ledgerView rows))).interest_portion ≤ a)
  | _ => true

/-- `opOK` holding at every step along a trace. -/
def traceOK (rows : List LoanPayment) : List LedgerOp → Bool
  | [] => true
  | op :: ops => opOK rows op && traceOK (applyOp rows op) ops

/-- Non-increasing remaining balance between an earlier and a later row. -/
def balGE (a b : LoanPayment) : Prop :=
  b.remaining_balance ≤ a.remaining_balance

instance : DecidableRel balGE :=
  fun a b => inferInstanceAs (Decidable (b.remaining_balance ≤ a.remaining_balance))

/-- Non-increasing balance between an earlier and a later schedule entry. -/
def schedBalGE (a b : ScheduledPayment) : Prop :=
  b.balance ≤ a.balance

/-- The relations the spec states for one schedule entry, with `b` the running
balance before the entry. -/
def entryStep (b : ℚ) (e : ScheduledPayment) : Prop :=
  e.interest = b * BIWEEKLY_RATE ∧
  e.principal = min (PAYMENT_AMOUNT - e.interest) b ∧
  e.amount = e.interest + e.principal ∧
  e.balance = max 0 (b - e.principal)

/-- The spec's running-balance chain: each entry satisfies `entryStep` for the
current running balance, whose entry's `balance` field is the running balance
for the rest. -/
def chainOK : ℚ → List ScheduledPayment → Prop
  | _, [] => True
  | b, e :: rest => entryStep b e ∧ chainOK e.balance rest

/-- `markPaymentCleared` with the outcome of the store insert made explicit:
on a store error the source alerts and returns without reloading, so the
in-memory rows are unchanged; on success the row is inserted.  The second
component is the surfaced error message, if any. -/
def markPaymentClearedWithDb (rows : List LoanPayment) (k : Nat)
    (dbError : Bool) : List LoanPayment × Option String :=
  if dbError then (rows, some "Error marking payment as cleared")
  else (markPaymentCleared rows k, none)

/-- `makeExtraPayment` with the outcome of the store insert made explicit:
validation errors and store errors both leave the rows unchanged and surface
a message; only a successful insert changes the rows. -/
def makeExtraPaymentWithDb (rows : List LoanPayment) (a : AmountField)
    (d : DateField) (dbError : Bool) : List LoanPayment × Option String :=
  match makeExtraPayment rows a d with
  | Except.error msg => (rows, some msg)
  | Except.ok rows2 =>
    if dbError then (rows, some "Error adding extra payment") else (rows2, none)

/-- Well-formedness of the raw store contents, maintained by the (amended)
ledger operations: rows are date-sorted in insertion order, balances are
non-increasing, and every row has a balance in `[0, PRINCIPAL]` and status
`"cleared"`. -/
def LedgerInv (rows : List LoanPayment) : Prop :=
  rows.Sorted dateLE ∧ rows.Pairwise balGE ∧
    ∀ p ∈ rows, 0 ≤ p.remaining_balance ∧ p.remaining_balance ≤ PRINCIPAL ∧
      p.status = "cleared"

/-! ### Basic numeric facts about the loan constants -/

theorem biweekly_rate_pos : 0 < BIWEEKLY_RATE := by
  norm_num [BIWEEKLY_RATE, ANNUAL_RATE]

theorem period_ms_pos : 0 < PERIOD_MS := by
  norm_num [PERIOD_MS, MS_PER_DAY]

/-- Any balance at most the loan principal accrues per-period interest at most
the payment amount. -/
theorem rate_covered_of_le_principal {x : ℚ} (hx : x ≤ PRINCIPAL) :
    x * BIWEEKLY_RATE ≤ PAYMENT_AMOUNT := by
  have h1 : x * BIWEEKLY_RATE ≤ PRINCIPAL * BIWEEKLY_RATE :=
    mul_le_mul_of_nonneg_right hx (le_of_lt biweekly_rate_pos)
  have h2 : PRINCIPAL * BIWEEKLY_RATE ≤ PAYMENT_AMOUNT := by
    norm_num [PRINCIPAL, BIWEEKLY_RATE, ANNUAL_RATE, PAYMENT_AMOUNT]
  exact le_trans h1 h2

/-! ### Structural lemmas about the schedule loop -/

theorem calcGo_zero (b : ℚ) (d : Int) : calcGo b d 0 = [] := rfl

theorem calcGo_nonpos (n : Nat) (b : ℚ) (d : Int) (hb : b ≤ 0) :
    calcGo b d n = [] := by
  cases n with
  | zero => rfl
  | succ n => simp [calcGo, hb]

/-- Every emitted schedule entry satisfies the spec's step relations for the
running balance, which the entry's `balance` field passes on. -/
theorem chainOK_calcGo (n : Nat) : ∀ (b : ℚ) (d : Int), chainOK b (calcGo b d n) := by
  induction n with
  | zero => intro b d; simp [calcGo, chainOK]
  | succ n ih =>
    intro b d
    by_cases hb : b ≤ 0
    · simp [calcGo, hb, chainOK]
    · simp only [calcGo, if_neg hb, chainOK]
      exact ⟨⟨rfl, rfl, rfl, rfl⟩, ih _ _⟩

theorem calcGo_length_le (n : Nat) : ∀ (b : ℚ) (d : Int),
    (calcGo b d n).length ≤ n := by
  induction n with
  | zero => intro b d; simp [calcGo]
  | succ n ih =>
    intro b d
    by_cases hb : b ≤ 0
    · simp [calcGo, hb]
    · simp only [calcGo, if_neg hb, List.length_cons]
      exact Nat.succ_le_succ (ih _ _)

/-- The `k`-th emitted entry is dated `startDate + k` periods, by raw
millisecond arithmetic. -/
theorem calcGo_date (n : Nat) : ∀ (b : ℚ) (d : Int) (k : Nat) (e : ScheduledPayment),
    (calcGo b d n)[k]? = some e → e.date = d + (k : Int) * PERIOD_MS := by
  induction n with
  | zero => intro b d k e h; simp [calcGo] at h
  | succ n ih =>
    intro b d k e h
    by_cases hb : b ≤ 0
    · simp [calcGo, hb] at h
    · simp only [calcGo, if_neg hb] at h
      cases k with
      | zero =>
        simp at h
        rw [← h]
        simp
      | succ k =>
        simp only [List.getElem?_cons_succ] at h
        have := ih _ _ _ _ h
        rw [this]
        push_cast
        ring

theorem calcGo_balance_nonneg (n : Nat) : ∀ (b : ℚ) (d : Int),
    ∀ e ∈ calcGo b d n, 0 ≤ e.balance := by
  induction n with
  | zero => intro b d e he; simp [calcGo] at he
  | succ n ih =>
    intro b d e he
    by_cases hb : b ≤ 0
    · simp [calcGo, hb] at he
    · simp only [calcGo, if_neg hb, List.mem_cons] at he
      rcases he with rfl | he
      · exact le_max_left _ _
      · exact ih _ _ e he

theorem calcGo_amount_eq (n : Nat) : ∀ (b : ℚ) (d : Int),
    ∀ e ∈ calcGo b d n, e.amount = e.interest + e.principal := by
  induction n with
  | zero => intro b d e he; simp [calcGo] at he
  | succ n ih =>
    intro b d e he
    by_cases hb : b ≤ 0
    · simp [calcGo, hb] at he
    · simp only [calcGo, if_neg hb, List.mem_cons] at he
      rcases he with rfl | he
      · rfl
      · exact ih _ _ e he

/-- If the loop stopped before producing `n` entries, either it never started
(`b ≤ 0`) or the last emitted entry's balance is exactly `0`. -/
theorem calcGo_early_term (n : Nat) : ∀ (b : ℚ) (d : Int),
    (calcGo b d n).length < n →
    (calcGo b d n = [] ∧ b ≤ 0) ∨
      ∃ e, (calcGo b d n).getLast? = some e ∧ e.balance = 0 := by
  induction n with
  | zero => intro b d h; omega
  | succ n ih =>
    intro b d h
    by_cases hb : b ≤ 0
    · exact Or.inl ⟨calcGo_nonpos _ _ _ hb, hb⟩
    · simp only [calcGo, if_neg hb, List.length_cons] at h ⊢
      have htl : (calcGo (max 0 (b - min (PAYMENT_AMOUNT - b * BIWEEKLY_RATE) b))
          (d + PERIOD_MS) n).length < n := by omega
      rcases ih _ _ htl with ⟨hnil, hle⟩ | ⟨e, hlast, hbal⟩
      · rw [hnil]
        refine Or.inr ⟨_, List.getLast?_singleton _, ?_⟩
        exact le_antisymm hle (le_max_left _ _)
      · refine Or.inr ⟨e, ?_, hbal⟩
        have hne : calcGo (max 0 (b - min (PAYMENT_AMOUNT - b * BIWEEKLY_RATE) b))
            (d + PERIOD_MS) n ≠ [] := by
          intro hcon
          rw [hcon] at hlast
          simp at hlast
        rw [List.getLast?_cons, hlast]
        simp

/-- If the starting balance's per-period interest is covered by the payment,
every emitted balance stays at or below the starting balance. -/
theorem calcGo_mem_le (n : Nat) : ∀ (b : ℚ) (d : Int),
    b * BIWEEKLY_RATE ≤ PAYMENT_AMOUNT → ∀ e ∈ calcGo b d n, e.balance ≤ b := by
  induction n with
  | zero => intro b d hcov e he; simp [calcGo] at he
  | succ n ih =>
    intro b d hcov e he
    by_cases hb : b ≤ 0
    · simp [calcGo, hb] at he
    · push_neg at hb
      simp only [calcGo, if_neg (not_le.mpr hb), List.mem_cons] at he
      have hple : 0 ≤ min (PAYMENT_AMOUNT - b * BIWEEKLY_RATE) b :=
        le_min (by linarith) (le_of_lt hb)
      have hnb : max 0 (b - min (PAYMENT_AMOUNT - b * BIWEEKLY_RATE) b) ≤ b :=
        max_le (le_of_lt hb) (by linarith)
      rcases he with rfl | he
      · exact hnb
      · have hcov2 : max 0 (b - min (PAYMENT_AMOUNT - b * BIWEEKLY_RATE) b) *
            BIWEEKLY_RATE ≤ PAYMENT_AMOUNT :=
          le_trans (mul_le_mul_of_nonneg_right hnb (le_of_lt biweekly_rate_pos)) hcov
        exact le_trans (ih _ _ hcov2 e he) hnb

/-- If the starting balance's per-period interest is covered by the payment,
the emitted balances are non-increasing along the schedule. -/
theorem calcGo_pairwise (n : Nat) : ∀ (b : ℚ) (d : Int),
    b * BIWEEKLY_RATE ≤ PAYMENT_AMOUNT → (calcGo b d n).Pairwise schedBalGE := by
  induction n with
  | zero => intro b d hcov; simp [calcGo]
  | succ n ih =>
    intro b d hcov
    by_cases hb : b ≤ 0
    · simp [calcGo, hb]
    · push_neg at hb
      simp only [calcGo, if_neg (not_le.mpr hb), List.pairwise_cons]
      have hnb : max 0 (b - min (PAYMENT_AMOUNT - b * BIWEEKLY_RATE) b) ≤ b :=
        max_le (le_of_lt hb) (by
          have : 0 ≤ min (PAYMENT_AMOUNT - b * BIWEEKLY_RATE) b :=
            le_min (by linarith) (le_of_lt hb)
          linarith)
      have hcov2 : max 0 (b - min (PAYMENT_AMOUNT - b * BIWEEKLY_RATE) b) *
          BIWEEKLY_RATE ≤ PAYMENT_AMOUNT :=
        le_trans (mul_le_mul_of_nonneg_right hnb (le_of_lt biweekly_rate_pos)) hcov
      exact ⟨fun e he => calcGo_mem_le n _ _ hcov2 e he, ih _ _ hcov2⟩

/-- Termination bound: when the payment strictly covers the starting
balance's per-period interest, at most `N` entries are emitted whenever the
balance fits in `N` margins `PAYMENT_AMOUNT - sb * BIWEEKLY_RATE`. -/
theorem calcGo_length_bound (sb : ℚ) (hcov : sb * BIWEEKLY_RATE < PAYMENT_AMOUNT) :
    ∀ (n N : Nat) (b : ℚ) (d : Int), b ≤ sb →
      b ≤ (N : ℚ) * (PAYMENT_AMOUNT - sb * BIWEEKLY_RATE) →
      (calcGo b d n).length ≤ N := by
  intro n
  induction n with
  | zero => intro N b d hle hN; simp [calcGo]
  | succ n ih =>
    intro N b d hle hN
    by_cases hb : b ≤ 0
    · simp [calcGo_nonpos _ _ _ hb]
    · push_neg at hb
      have hδ : 0 < PAYMENT_AMOUNT - sb * BIWEEKLY_RATE := by linarith
      have hNpos : 0 < N := by
        by_contra hcon
        push_neg at hcon
        interval_cases N
        simp at hN
        linarith
      obtain ⟨M, rfl⟩ : ∃ M, N = M + 1 := ⟨N - 1, by omega⟩
      simp only [calcGo, if_neg (not_le.mpr hb), List.length_cons]
      refine Nat.succ_le_succ (ih M _ _ ?_ ?_)
      · have hple : 0 ≤ min (PAYMENT_AMOUNT - b * BIWEEKLY_RATE) b := by
          refine le_min ?_ (le_of_lt hb)
          have : b * BIWEEKLY_RATE ≤ sb * BIWEEKLY_RATE :=
            mul_le_mul_of_nonneg_right hle (le_of_lt biweekly_rate_pos)
          linarith
        have : max 0 (b - min (PAYMENT_AMOUNT - b * BIWEEKLY_RATE) b) ≤ b :=
          max_le (le_of_lt hb) (by linarith)
        exact le_trans this hle
      · have hrate : b * BIWEEKLY_RATE ≤ sb * BIWEEKLY_RATE :=
          mul_le_mul_of_nonneg_right hle (le_of_lt biweekly_rate_pos)
      -- either the whole balance is paid (new balance 0), or at least the
      -- margin is paid off
        have hMnn : (0 : ℚ) ≤ (M : ℚ) * (PAYMENT_AMOUNT - sb * BIWEEKLY_RATE) :=
          mul_nonneg (Nat.cast_nonneg M) (le_of_lt hδ)
        refine max_le hMnn ?_
        rcases le_total (PAYMENT_AMOUNT - b * BIWEEKLY_RATE) b with hmin | hmin
        · rw [min_eq_left hmin]
          have : ((M : ℚ) + 1) * (PAYMENT_AMOUNT - sb * BIWEEKLY_RATE) =
              (M : ℚ) * (PAYMENT_AMOUNT - sb * BIWEEKLY_RATE) +
                (PAYMENT_AMOUNT - sb * BIWEEKLY_RATE) := by ring
          push_cast at hN
          linarith
        · rw [min_eq_right hmin]
          linarith

/-! ### Reconciliation helpers -/

theorem getD_last_eq {α : Type} (dflt : α) (l : List α) (h : l ≠ []) :
    l.getD (l.length - 1) dflt = l.getLast h := by
  rw [List.getD_eq_getElem?_getD, ← List.getLast?_eq_getElem?,
    List.getLast?_eq_getLast l h]
  rfl

theorem foldl_add_map_sum {α : Type} (f : α → ℚ) :
    ∀ (l : List α) (a : ℚ), l.foldl (fun s p => s + f p) a = a + (l.map f).sum := by
  intro l
  induction l with
  | nil => intro a; simp
  | cons x xs ih =>
    intro a
    simp only [List.foldl_cons, List.map_cons, List.sum_cons, ih]
    ring

theorem remainingBalanceOf_ne (rows : List LoanPayment) (h : rows ≠ []) :
    remainingBalanceOf rows = (rows.getLast h).remaining_balance := by
  unfold remainingBalanceOf
  rw [if_pos (List.length_pos.mpr h), getD_last_eq dummyPayment rows h]

theorem lastPaymentDateOf_ne (rows : List LoanPayment) (h : rows ≠ []) :
    lastPaymentDateOf rows = (rows.getLast h).payment_date := by
  unfold lastPaymentDateOf
  rw [if_pos (List.length_pos.mpr h), getD_last_eq dummyPayment rows h]

/-- In a `Pairwise R` list, every element either is the last element or is
`R`-related to it. -/
theorem pairwise_rel_getLast {α : Type} {R : α → α → Prop} :
    ∀ (l : List α) (h : l ≠ []), l.Pairwise R → ∀ p ∈ l,
      p = l.getLast h ∨ R p (l.getLast h) := by
  intro l
  induction l with
  | nil => intro h; simp at h
  | cons a l ih =>
    intro h hp p hmem
    cases l with
    | nil =>
      simp at hmem
      subst hmem
      exact Or.inl rfl
    | cons b t =>
      rw [List.getLast_cons (by simp)]
      rcases List.mem_cons.mp hmem with rfl | hmem2
      · exact Or.inr ((List.pairwise_cons.mp hp).1 _ (List.getLast_mem _))
      · exact ih (by simp) (List.pairwise_cons.mp hp).2 p hmem2

/-- Under the ledger invariant a read returns the raw rows unchanged. -/
theorem ledgerView_eq_self (rows : List LoanPayment) (hInv : LedgerInv rows) :
    ledgerView rows = rows := by
  unfold ledgerView
  have hf : rows.filter (fun p => p.status == "cleared") = rows := by
    refine List.filter_eq_self.mpr (fun a ha => ?_)
    rw [(hInv.2.2 a ha).2.2]
    rfl
  rw [hf]
  exact List.Sorted.insertionSort_eq hInv.1

theorem remainingBalanceOf_bounds (rows : List LoanPayment) (hInv : LedgerInv rows) :
    0 ≤ remainingBalanceOf rows ∧ remainingBalanceOf rows ≤ PRINCIPAL := by
  by_cases h : rows = []
  · subst h
    norm_num [remainingBalanceOf, PRINCIPAL]
  · rw [remainingBalanceOf_ne rows h]
    have hmem := List.getLast_mem h
    exact ⟨(hInv.2.2 _ hmem).1, (hInv.2.2 _ hmem).2.1⟩

theorem mem_date_le_last (rows : List LoanPayment) (hs : rows.Sorted dateLE)
    (p : LoanPayment) (hp : p ∈ rows) : p.payment_date ≤ lastPaymentDateOf rows := by
  have h : rows ≠ [] := List.ne_nil_of_mem hp
  rw [lastPaymentDateOf_ne rows h]
  rcases pairwise_rel_getLast rows h hs p hp with heq | hrel
  · rw [heq]
  · exact hrel

theorem last_bal_le_mem (rows : List LoanPayment) (hp2 : rows.Pairwise balGE)
    (p : LoanPayment) (hp : p ∈ rows) :
    remainingBalanceOf rows ≤ p.remaining_balance := by
  have h : rows ≠ [] := List.ne_nil_of_mem hp
  rw [remainingBalanceOf_ne rows h]
  rcases pairwise_rel_getLast rows h hp2 p hp with heq | hrel
  · rw [heq]
  · exact hrel

theorem mem_of_getElem_some {α : Type} {l : List α} {k : Nat} {e : α}
    (h : l[k]? = some e) : e ∈ l := by
  obtain ⟨hk, rfl⟩ := List.getElem?_eq_some.mp h
  exact List.getElem_mem hk

/-- All literal field equations of `extraPaymentCore`. -/
theorem extraPaymentCore_spec (a : ℚ) (pd lpd : Int) (cb : ℚ) :
    (extraPaymentCore a pd lpd cb).payment_date = pd ∧
    (extraPaymentCore a pd lpd cb).amount_paid = a ∧
    (extraPaymentCore a pd lpd cb).interest_portion =
      cb * (ANNUAL_RATE / 365) *
        ((Int.floor (((pd - lpd : Int) : ℚ) / (MS_PER_DAY : ℚ)) : Int) : ℚ) ∧
    (extraPaymentCore a pd lpd cb).principal_portion =
      min (a - (extraPaymentCore a pd lpd cb).interest_portion) cb ∧
    (extraPaymentCore a pd lpd cb).remaining_balance =
      max 0 (cb - (extraPaymentCore a pd lpd cb).principal_portion) ∧
    (extraPaymentCore a pd lpd cb).status = "cleared" :=
  ⟨rfl, rfl, rfl, rfl, rfl, rfl⟩

/-! ### Invariant preservation by the ledger operations -/

theorem ledgerInv_nil : LedgerInv [] :=
  ⟨List.sorted_nil, List.Pairwise.nil, by simp⟩

theorem markPaymentCleared_inv (rows : List LoanPayment) (k : Nat)
    (hInv : LedgerInv rows) : LedgerInv (markPaymentCleared rows k) := by
  unfold markPaymentCleared
  cases h : (upcomingScheduleOf rows)[k]? with
  | none => exact hInv
  | some e =>
    have hv := ledgerView_eq_self rows hInv
    have hbounds := remainingBalanceOf_bounds rows hInv
    have hcov : remainingBalanceOf rows * BIWEEKLY_RATE ≤ PAYMENT_AMOUNT :=
      rate_covered_of_le_principal hbounds.2
    have hsch : upcomingScheduleOf rows =
        calcGo (remainingBalanceOf rows) (nextPaymentDateOf rows) 20 := by
      unfold upcomingScheduleOf calculateSchedule
      rw [hv]
    rw [hsch] at h
    have hmem : e ∈ calcGo (remainingBalanceOf rows) (nextPaymentDateOf rows) 20 :=
      mem_of_getElem_some h
    have hdate : e.date = nextPaymentDateOf rows + (k : Int) * PERIOD_MS :=
      calcGo_date 20 _ _ k e h
    have hbal_le : e.balance ≤ remainingBalanceOf rows :=
      calcGo_mem_le 20 _ _ hcov e hmem
    have hbal_nn : 0 ≤ e.balance := calcGo_balance_nonneg 20 _ _ e hmem
    have hdate_gt : ∀ p ∈ rows, p.payment_date ≤ e.date := by
      intro p hp
      have h1 : p.payment_date ≤ lastPaymentDateOf rows :=
        mem_date_le_last rows hInv.1 p hp
      have h2 : (0 : Int) ≤ (k : Int) * PERIOD_MS :=
        mul_nonneg (Int.natCast_nonneg k) (le_of_lt period_ms_pos)
      have h3 : lastPaymentDateOf rows < nextPaymentDateOf rows := by
        unfold nextPaymentDateOf
        linarith [period_ms_pos]
      rw [hdate]
      linarith
    refine ⟨?_, ?_, ?_⟩
    · refine List.pairwise_append.mpr ⟨hInv.1, List.pairwise_singleton _ _, ?_⟩
      intro p hp q hq
      rw [List.mem_singleton.mp hq]
      exact hdate_gt p hp
    · refine List.pairwise_append.mpr ⟨hInv.2.1, List.pairwise_singleton _ _, ?_⟩
      intro p hp q hq
      rw [List.mem_singleton.mp hq]
      show e.balance ≤ p.remaining_balance
      exact le_trans hbal_le (last_bal_le_mem rows hInv.2.1 p hp)
    · intro p hp
      rcases List.mem_append.mp hp with hp1 | hp1
      · exact hInv.2.2 p hp1
      · rw [List.mem_singleton.mp hp1]
        exact ⟨hbal_nn, le_trans hbal_le hbounds.2, rfl⟩

theorem extra_row_inv (rows : List LoanPayment) (a : ℚ) (d : Int)
    (hInv : LedgerInv rows)
    (hd : lastPaymentDateOf rows ≤ d)
    (hi : (extraPaymentCore a d (lastPaymentDateOf rows)
      (remainingBalanceOf rows)).interest_portion ≤ a) :
    LedgerInv (rows ++ [extraPaymentCore a d (lastPaymentDateOf rows)
      (remainingBalanceOf rows)]) := by
  have hbounds := remainingBalanceOf_bounds rows hInv
  obtain ⟨hpd, hpa, hintr, hprin, hrem, hstat⟩ :=
    extraPaymentCore_spec a d (lastPaymentDateOf rows) (remainingBalanceOf rows)
  have hp_nn : 0 ≤ (extraPaymentCore a d (lastPaymentDateOf rows)
      (remainingBalanceOf rows)).principal_portion := by
    rw [hprin]
    exact le_min (by linarith) hbounds.1
  have hrb_le : (extraPaymentCore a d (lastPaymentDateOf rows)
      (remainingBalanceOf rows)).remaining_balance ≤ remainingBalanceOf rows := by
    rw [hrem]
    exact max_le hbounds.1 (by linarith)
  have hrb_nn : 0 ≤ (extraPaymentCore a d (lastPaymentDateOf rows)
      (remainingBalanceOf rows)).remaining_balance := by
    rw [hrem]
    exact le_max_left _ _
  refine ⟨?_, ?_, ?_⟩
  · refine List.pairwise_append.mpr ⟨hInv.1, List.pairwise_singleton _ _, ?_⟩
    intro p hp q hq
    rw [List.mem_singleton.mp hq]
    show p.payment_date ≤ _
    rw [hpd]
    exact le_trans (mem_date_le_last rows hInv.1 p hp) hd
  · refine List.pairwise_append.mpr ⟨hInv.2.1, List.pairwise_singleton _ _, ?_⟩
    intro p hp q hq
    rw [List.mem_singleton.mp hq]
    show (extraPaymentCore _ _ _ _).remaining_balance ≤ p.remaining_balance
    exact le_trans hrb_le (last_bal_le_mem rows hInv.2.1 p hp)
  · intro p hp
    rcases List.mem_append.mp hp with hp1 | hp1
    · exact hInv.2.2 p hp1
    · rw [List.mem_singleton.mp hp1]
      exact ⟨hrb_nn, le_trans hrb_le hbounds.2, hstat⟩

theorem deletePayment_inv (rows : List LoanPayment) (i : Nat)
    (hInv : LedgerInv rows) : LedgerInv (deletePayment rows i) := by
  have hsub : List.Sublist (rows.eraseIdx i) rows := List.eraseIdx_sublist rows i
  exact ⟨List.Pairwise.sublist hsub hInv.1, List.Pairwise.sublist hsub hInv.2.1,
    fun p hp => hInv.2.2 p (hsub.subset hp)⟩

theorem applyOp_inv (rows : List LoanPayment) (op : LedgerOp)
    (hInv : LedgerInv rows) (hOK : opOK rows op = true) :
    LedgerInv (applyOp rows op) := by
  cases op with
  | markCleared k => exact markPaymentCleared_inv rows k hInv
  | deletePay i => exact deletePayment_inv rows i hInv
  | extra a d =>
    cases a with
    | fieldEmpty => simpa [applyOp, makeExtraPayment] using hInv
    | nonNumeric =>
      cases d with
      | fieldEmpty => simpa [applyOp, makeExtraPayment] using hInv
      | dateValue v => simpa [applyOp, makeExtraPayment] using hInv
    | numeric x =>
      cases d with
      | fieldEmpty => simpa [applyOp, makeExtraPayment] using hInv
      | dateValue v =>
        have hv := ledgerView_eq_self rows hInv
        rw [opOK, hv, Bool.and_eq_true, decide_eq_true_eq, decide_eq_true_eq] at hOK
        by_cases hx : x ≤ 0
        · simpa [applyOp, makeExtraPayment, hx] using hInv
        · have : applyOp rows (LedgerOp.extra (AmountField.numeric x)
              (DateField.dateValue v)) =
              rows ++ [extraPaymentCore x v (lastPaymentDateOf rows)
                (remainingBalanceOf rows)] := by
            simp [applyOp, makeExtraPayment, hx, hv]
          rw [this]
          exact extra_row_inv rows x v hInv hOK.1 hOK.2

theorem applyTrace_inv : ∀ (ops : List LedgerOp) (rows : List LoanPayment),
    LedgerInv rows → traceOK rows ops = true → LedgerInv (applyTrace rows ops) := by
  intro ops
  induction ops with
  | nil => intro rows hInv _; exact hInv
  | cons op ops ih =>
    intro rows hInv hOK
    rw [traceOK, Bool.and_eq_true] at hOK
    exact ih _ (applyOp_inv rows op hInv hOK.1) hOK.2

/-! ### Claim theorems -/

/-- C1: in every `projectSchedule` call, with `b` the running balance before an
emitted entry, the entry's interest is `b * (annualRate / 26)`, its principal
is `min(paymentAmount - interest, b)`, its amount is `interest + principal`,
and its balance field is `max(0, b - principal)`, which becomes the running
balance for the next entry. -/
theorem C1_schedule_step_relations (startBalance : ℚ) (startDate : Int)
    (count : Nat) :
    chainOK startBalance (calculateSchedule startBalance startDate count) :=
  chainOK_calcGo count startBalance startDate

/-- C2: an extra payment computes `daysSinceLastPayment` as the floor of the
elapsed time in days, interest as `currentBalance * (annualRate / 365) *
daysSinceLastPayment`, principal as `min(amount - interest, currentBalance)`,
and the stored remaining balance as `max(0, currentBalance - principal)`. -/
theorem C2_extra_payment_accrual (amount : ℚ)
    (paymentDate lastPaymentDate : Int) (currentBalance : ℚ) :
    (extraPaymentCore amount paymentDate lastPaymentDate
        currentBalance).interest_portion =
      currentBalance * (ANNUAL_RATE / 365) *
        ((Int.floor (((paymentDate - lastPaymentDate : Int) : ℚ) /
          (MS_PER_DAY : ℚ)) : Int) : ℚ) ∧
    (extraPaymentCore amount paymentDate lastPaymentDate
        currentBalance).principal_portion =
      min (amount - (extraPaymentCore amount paymentDate lastPaymentDate
        currentBalance).interest_portion) currentBalance ∧
    (extraPaymentCore amount paymentDate lastPaymentDate
        currentBalance).remaining_balance =
      max 0 (currentBalance - (extraPaymentCore amount paymentDate
        lastPaymentDate currentBalance).principal_portion) ∧
    (extraPaymentCore amount paymentDate lastPaymentDate
        currentBalance).amount_paid = amount ∧
    (extraPaymentCore amount paymentDate lastPaymentDate
        currentBalance).payment_date = paymentDate :=
  ⟨rfl, rfl, rfl, rfl, rfl⟩

/-- C3: reconciliation of a cleared ledger: remaining balance is the last
entry's (or the principal when empty), the totals are sums over the entries,
the last payment date is the last entry's date (or start minus one period when
empty), and the next payment date is one period later — in particular an empty
ledger reconciles to the full principal and a next payment on the start date. -/
theorem C3_reconcile_current_state (ps : List LoanPayment) :
    remainingBalanceOf ps =
      (Option.map (fun p => p.remaining_balance) ps.getLast?).getD PRINCIPAL ∧
    totalInterestPaidOf ps = (ps.map (fun p => p.interest_portion)).sum ∧
    totalPrincipalPaidOf ps = (ps.map (fun p => p.principal_portion)).sum ∧
    lastPaymentDateOf ps =
      (Option.map (fun p => p.payment_date) ps.getLast?).getD
        (START_DATE - PERIOD_MS) ∧
    nextPaymentDateOf ps = lastPaymentDateOf ps + PERIOD_MS ∧
    remainingBalanceOf [] = PRINCIPAL ∧
    nextPaymentDateOf [] = START_DATE := by
  refine ⟨?_, ?_, ?_, ?_, rfl, rfl, ?_⟩
  · by_cases h : ps = []
    · subst h; rfl
    · rw [remainingBalanceOf_ne ps h, List.getLast?_eq_getLast ps h]
      rfl
  · rw [totalInterestPaidOf, foldl_add_map_sum, zero_add]
  · rw [totalPrincipalPaidOf, foldl_add_map_sum, zero_add]
  · by_cases h : ps = []
    · subst h; rfl
    · rw [lastPaymentDateOf_ne ps h, List.getLast?_eq_getLast ps h]
      rfl
  · show (if 0 < ([] : List LoanPayment).length then _ else START_DATE - PERIOD_MS) +
      PERIOD_MS = START_DATE
    simp

/-- C4 counterexample: for startBalance 200000 (per-period interest above the
payment amount) the schedule's balance field strictly increases between the
first two emitted entries, so the non-increase claim fails for that
startBalance. -/
theorem C4_counterexample :
    1 < (calculateSchedule 200000 0 2).length ∧
    ((calculateSchedule 200000 0 2).getD 0 dummyScheduled).balance <
      ((calculateSchedule 200000 0 2).getD 1 dummyScheduled).balance := by
  constructor
  · norm_num [calculateSchedule, calcGo, BIWEEKLY_RATE, ANNUAL_RATE,
      PAYMENT_AMOUNT, min_def, max_def]
  · norm_num [calculateSchedule, calcGo, BIWEEKLY_RATE, ANNUAL_RATE,
      PAYMENT_AMOUNT, min_def, max_def, dummyScheduled]

/-- C4 (amended): provided the starting balance's per-period interest does not
exceed the payment amount (true of every balance up to the loan's principal),
consecutive balance fields of one `projectSchedule` call are non-increasing;
and unconditionally, a schedule that stops before `count` entries is either
empty or ends with balance exactly 0. -/
theorem C4_balance_monotone (startBalance : ℚ) (startDate : Int) (count : Nat)
    (hcov : startBalance * BIWEEKLY_RATE ≤ PAYMENT_AMOUNT) :
    (∀ i : Nat, i + 1 < (calculateSchedule startBalance startDate count).length →
      ((calculateSchedule startBalance startDate count).getD (i + 1)
        dummyScheduled).balance ≤
      ((calculateSchedule startBalance startDate count).getD i
        dummyScheduled).balance) ∧
    ((calculateSchedule startBalance startDate count).length < count →
      calculateSchedule startBalance startDate count = [] ∨
      ∃ e, (calculateSchedule startBalance startDate count).getLast? = some e ∧
        e.balance = 0) := by
  constructor
  · intro i hi1
    have hi0 : i < (calculateSchedule startBalance startDate count).length := by
      omega
    rw [List.getD_eq_getElem _ _ hi1, List.getD_eq_getElem _ _ hi0]
    exact List.pairwise_iff_getElem.mp
      (calcGo_pairwise count startBalance startDate hcov) i (i + 1) hi0 hi1
      (by omega)
  · intro h
    rcases calcGo_early_term count startBalance startDate h with ⟨h1, _⟩ | h1
    · exact Or.inl h1
    · exact Or.inr h1

/-- C4 witness: at the loan's own terms the second entry's balance does not
exceed the first entry's. -/
theorem C4_balance_monotone_witness :
    ((calculateSchedule 22000 0 3).getD 1 dummyScheduled).balance ≤
      ((calculateSchedule 22000 0 3).getD 0 dummyScheduled).balance :=
  (C4_balance_monotone 22000 0 3
      (by norm_num [BIWEEKLY_RATE, ANNUAL_RATE, PAYMENT_AMOUNT])).1 0
    (by norm_num [calculateSchedule, calcGo, BIWEEKLY_RATE, ANNUAL_RATE,
      PAYMENT_AMOUNT, min_def, max_def])

/-- C5 counterexample: recording an extra payment backdated seven days before
an existing cleared payment produces a ledger whose date-ascending view has a
strictly increasing pair of remaining balances, violating the invariant. -/
theorem C5_counterexample :
    ¬ (ledgerView (applyTrace []
      [LedgerOp.extra (AmountField.numeric 500) (DateField.dateValue START_DATE),
       LedgerOp.extra (AmountField.numeric 500)
         (DateField.dateValue (START_DATE - 7 * MS_PER_DAY))])).Pairwise balGE := by
  intro hcon
  have h1 : applyOp [] (LedgerOp.extra (AmountField.numeric 500)
      (DateField.dateValue START_DATE)) =
      [extraPaymentCore 500 START_DATE (START_DATE - PERIOD_MS) 22000] := by
    norm_num [applyOp, makeExtraPayment, ledgerView, lastPaymentDateOf,
      remainingBalanceOf, PRINCIPAL]
  have hv1 : ledgerView [extraPaymentCore 500 START_DATE (START_DATE - PERIOD_MS)
      22000] = [extraPaymentCore 500 START_DATE (START_DATE - PERIOD_MS) 22000] := by
    norm_num [ledgerView, extraPaymentCore, List.insertionSort, List.orderedInsert]
  have h3 : makeExtraPayment
      [extraPaymentCore 500 START_DATE (START_DATE - PERIOD_MS) 22000]
      (AmountField.numeric 500)
      (DateField.dateValue (START_DATE - 7 * MS_PER_DAY)) =
      Except.ok
        [extraPaymentCore 500 START_DATE (START_DATE - PERIOD_MS) 22000,
         extraPaymentCore 500 (START_DATE - 7 * MS_PER_DAY) START_DATE
           (1572580 / 73)] := by
    rw [makeExtraPayment.eq_def]
    simp only [hv1]
    norm_num [lastPaymentDateOf, remainingBalanceOf, extraPaymentCore,
      START_DATE, PERIOD_MS, MS_PER_DAY, ANNUAL_RATE, min_def, max_def]
  have h2 : applyTrace []
      [LedgerOp.extra (AmountField.numeric 500) (DateField.dateValue START_DATE),
       LedgerOp.extra (AmountField.numeric 500)
         (DateField.dateValue (START_DATE - 7 * MS_PER_DAY))] =
      [extraPaymentCore 500 START_DATE (START_DATE - PERIOD_MS) 22000,
       extraPaymentCore 500 (START_DATE - 7 * MS_PER_DAY) START_DATE
         (1572580 / 73)] := by
    rw [applyTrace, applyTrace, applyTrace, h1]
    simp [applyOp, h3]
  rw [h2] at hcon
  have hview : ledgerView
      [extraPaymentCore 500 START_DATE (START_DATE - PERIOD_MS) 22000,
       extraPaymentCore 500 (START_DATE - 7 * MS_PER_DAY) START_DATE
         (1572580 / 73)] =
      [extraPaymentCore 500 (START_DATE - 7 * MS_PER_DAY) START_DATE
         (1572580 / 73),
       extraPaymentCore 500 START_DATE (START_DATE - PERIOD_MS) 22000] := by
    norm_num [ledgerView, extraPaymentCore, List.insertionSort,
      List.orderedInsert, dateLE, START_DATE, PERIOD_MS, MS_PER_DAY]
  rw [hview] at hcon
  have hrel : (extraPaymentCore 500 START_DATE (START_DATE - PERIOD_MS)
      22000).remaining_balance ≤
      (extraPaymentCore 500 (START_DATE - 7 * MS_PER_DAY) START_DATE
        (1572580 / 73)).remaining_balance :=
    (List.pairwise_cons.mp hcon).1 _ (List.mem_cons_self _ _)
  norm_num [extraPaymentCore, START_DATE, PERIOD_MS, MS_PER_DAY, ANNUAL_RATE,
    min_def, max_def] at hrel

/-- C5 (amended): after every sequence of ledger operations in which each
recorded extra payment is dated no earlier than the then-last cleared payment
and its amount covers the accrued interest, the ledger ordered by paymentDate
ascending has non-increasing remaining balances, all of them non-negative. -/
theorem C5_ledger_invariant (ops : List LedgerOp)
    (hOK : traceOK [] ops = true) :
    (ledgerView (applyTrace [] ops)).Pairwise balGE ∧
    ∀ p ∈ ledgerView (applyTrace [] ops), 0 ≤ p.remaining_balance := by
  have hInv := applyTrace_inv ops [] ledgerInv_nil hOK
  rw [ledgerView_eq_self _ hInv]
  exact ⟨hInv.2.1, fun p hp => (hInv.2.2 p hp).1⟩

/-- C5 witness: a concrete well-formed trace (one timely, covering extra
payment) satisfies the amended invariant. -/
theorem C5_ledger_invariant_witness :
    (ledgerView (applyTrace [] [LedgerOp.extra (AmountField.numeric 500)
      (DateField.dateValue START_DATE)])).Pairwise balGE ∧
    ∀ p ∈ ledgerView (applyTrace [] [LedgerOp.extra (AmountField.numeric 500)
      (DateField.dateValue START_DATE)]), 0 ≤ p.remaining_balance := by
  refine C5_ledger_invariant
    [LedgerOp.extra (AmountField.numeric 500) (DateField.dateValue START_DATE)]
    ?_
  norm_num [traceOK, opOK, applyOp, makeExtraPayment, ledgerView,
    lastPaymentDateOf, remainingBalanceOf, PRINCIPAL, extraPaymentCore,
    START_DATE, PERIOD_MS, MS_PER_DAY, ANNUAL_RATE]

/-- C6: `projectSchedule` emits at most `count` entries; the `k`-th entry is
dated exactly `startDate + k * 14` days by raw date arithmetic; a sequence
shorter than `count` means the running balance reached `≤ 0` (payoff
termination); and a non-positive starting balance yields the empty sequence. -/
theorem C6_schedule_shape (startBalance : ℚ) (startDate : Int) (count : Nat) :
    (calculateSchedule startBalance startDate count).length ≤ count ∧
    (∀ (k : Nat) (e : ScheduledPayment),
      (calculateSchedule startBalance startDate count)[k]? = some e →
      e.date = startDate + (k : Int) * PERIOD_MS) ∧
    ((calculateSchedule startBalance startDate count).length < count →
      (calculateSchedule startBalance startDate count = [] ∧ startBalance ≤ 0) ∨
      ∃ e, (calculateSchedule startBalance startDate count).getLast? = some e ∧
        e.balance ≤ 0) ∧
    (startBalance ≤ 0 → calculateSchedule startBalance startDate count = []) := by
  refine ⟨calcGo_length_le count startBalance startDate,
    fun k e h => calcGo_date count startBalance startDate k e h, fun h => ?_,
    fun h => calcGo_nonpos count startBalance startDate h⟩
  rcases calcGo_early_term count startBalance startDate h with h1 | ⟨e, he, hbal⟩
  · exact Or.inl h1
  · exact Or.inr ⟨e, he, le_of_eq hbal⟩

/-- C6 witness: a non-positive balance yields the empty schedule, and a
concrete schedule respects the length cap. -/
theorem C6_schedule_shape_witness :
    calculateSchedule (-5) 0 7 = [] ∧ (calculateSchedule 22000 0 3).length ≤ 3 :=
  ⟨(C6_schedule_shape (-5) 0 7).2.2.2 (by norm_num),
    (C6_schedule_shape 22000 0 3).1⟩

/-- C7 counterexample: an extra payment of 30000 against a balance of 22000
(as recorded by `makeExtraPayment` on a fresh ledger) stores a row with
`amountPaid` exceeding `principalPortion + interestPortion` by more than 7000,
far beyond rounding tolerance. -/
theorem C7_counterexample :
    makeExtraPayment [] (AmountField.numeric 30000)
        (DateField.dateValue START_DATE) =
      Except.ok [extraPaymentCore 30000 START_DATE (START_DATE - PERIOD_MS)
        22000] ∧
    (extraPaymentCore 30000 START_DATE (START_DATE - PERIOD_MS)
        22000).principal_portion +
      (extraPaymentCore 30000 START_DATE (START_DATE - PERIOD_MS)
        22000).interest_portion + 7000 <
      (extraPaymentCore 30000 START_DATE (START_DATE - PERIOD_MS)
        22000).amount_paid := by
  constructor
  · norm_num [makeExtraPayment, ledgerView, lastPaymentDateOf,
      remainingBalanceOf, PRINCIPAL]
  · norm_num [extraPaymentCore, START_DATE, PERIOD_MS, MS_PER_DAY, ANNUAL_RATE,
      min_def, max_def]

/-- C7 (amended): rows created from a scheduled payment always satisfy
`amountPaid = principalPortion + interestPortion` and `remainingBalance ≥ 0`;
rows created by an extra payment always satisfy `remainingBalance ≥ 0`, and
satisfy the sum identity provided the payment does not overpay the balance
(`amount - interest ≤ currentBalance`). -/
theorem C7_row_invariants
    (startBalance : ℚ) (startDate : Int) (count : Nat) (e : ScheduledPayment)
    (he : e ∈ calculateSchedule startBalance startDate count)
    (a : ℚ) (pd lpd : Int) (cb : ℚ) :
    (rowOfScheduled e).amount_paid =
      (rowOfScheduled e).principal_portion +
        (rowOfScheduled e).interest_portion ∧
    0 ≤ (rowOfScheduled e).remaining_balance ∧
    0 ≤ (extraPaymentCore a pd lpd cb).remaining_balance ∧
    (a - (extraPaymentCore a pd lpd cb).interest_portion ≤ cb →
      (extraPaymentCore a pd lpd cb).amount_paid =
        (extraPaymentCore a pd lpd cb).principal_portion +
          (extraPaymentCore a pd lpd cb).interest_portion) := by
  obtain ⟨hpd, hpa, hintr, hprin, hrem, hstat⟩ := extraPaymentCore_spec a pd lpd cb
  refine ⟨?_, ?_, ?_, ?_⟩
  · show e.amount = e.principal + e.interest
    rw [calcGo_amount_eq count startBalance startDate e he]
    ring
  · exact calcGo_balance_nonneg count startBalance startDate e he
  · rw [hrem]
    exact le_max_left _ _
  · intro hover
    rw [hpa, hprin, min_eq_left hover]
    ring

/-- C7 witness: the sum identity and non-negative balance hold for a concrete
schedule entry and a concrete non-overpaying extra payment, and the balance of
a concrete overpaying extra payment is still non-negative. -/
theorem C7_row_invariants_witness :
    ⟨START_DATE, 275, 550 / 13, 3025 / 13, 282975 / 13⟩ ∈
      calculateSchedule 22000 START_DATE 1 ∧
    (rowOfScheduled ⟨START_DATE, 275, 550 / 13, 3025 / 13,
      282975 / 13⟩).amount_paid =
      (rowOfScheduled ⟨START_DATE, 275, 550 / 13, 3025 / 13,
        282975 / 13⟩).principal_portion +
      (rowOfScheduled ⟨START_DATE, 275, 550 / 13, 3025 / 13,
        282975 / 13⟩).interest_portion ∧
    0 ≤ (extraPaymentCore 500 START_DATE (START_DATE - PERIOD_MS)
      22000).remaining_balance ∧
    0 ≤ (extraPaymentCore 30000 START_DATE (START_DATE - PERIOD_MS)
      22000).remaining_balance ∧
    (extraPaymentCore 500 START_DATE (START_DATE - PERIOD_MS)
        22000).amount_paid =
      (extraPaymentCore 500 START_DATE (START_DATE - PERIOD_MS)
        22000).principal_portion +
      (extraPaymentCore 500 START_DATE (START_DATE - PERIOD_MS)
        22000).interest_portion := by
  have hmem : (⟨START_DATE, 275, 550 / 13, 3025 / 13, 282975 / 13⟩ :
      ScheduledPayment) ∈ calculateSchedule 22000 START_DATE 1 := by
    norm_num [calculateSchedule, calcGo, BIWEEKLY_RATE, ANNUAL_RATE,
      PAYMENT_AMOUNT, PRINCIPAL, min_def, max_def]
  have h := C7_row_invariants 22000 START_DATE 1 _ hmem 500 START_DATE
    (START_DATE - PERIOD_MS) 22000
  have h30 := C7_row_invariants 22000 START_DATE 1 _ hmem 30000 START_DATE
    (START_DATE - PERIOD_MS) 22000
  exact ⟨hmem, h.1, h.2.2.1, h30.2.2.1,
    h.2.2.2 (by norm_num [extraPaymentCore, START_DATE, PERIOD_MS, MS_PER_DAY,
      ANNUAL_RATE])⟩

/-- C8: a missing amount, a non-numeric amount, a non-positive amount, or a
missing date is rejected by `makeExtraPayment` with the source's alert text
before any computation or persistence, and the ledger is left unchanged. -/
theorem C8_extra_payment_validation (rows : List LoanPayment)
    (a : AmountField) (d : DateField) (x : ℚ) (v : Int) (hx : x ≤ 0) :
    makeExtraPayment rows AmountField.fieldEmpty d =
      Except.error "Please enter both amount and date" ∧
    makeExtraPayment rows a DateField.fieldEmpty =
      Except.error "Please enter both amount and date" ∧
    makeExtraPayment rows AmountField.nonNumeric (DateField.dateValue v) =
      Except.error "Please enter a valid amount" ∧
    makeExtraPayment rows (AmountField.numeric x) (DateField.dateValue v) =
      Except.error "Please enter a valid amount" ∧
    applyOp rows (LedgerOp.extra AmountField.fieldEmpty d) = rows ∧
    applyOp rows (LedgerOp.extra a DateField.fieldEmpty) = rows ∧
    applyOp rows (LedgerOp.extra AmountField.nonNumeric
      (DateField.dateValue v)) = rows ∧
    applyOp rows (LedgerOp.extra (AmountField.numeric x)
      (DateField.dateValue v)) = rows := by
  have h1 : makeExtraPayment rows AmountField.fieldEmpty d =
      Except.error "Please enter both amount and date" := by
    cases d <;> rfl
  have h2 : makeExtraPayment rows a DateField.fieldEmpty =
      Except.error "Please enter both amount and date" := by
    cases a <;> rfl
  have h4 : makeExtraPayment rows (AmountField.numeric x)
      (DateField.dateValue v) = Except.error "Please enter a valid amount" := by
    simp [makeExtraPayment, hx]
  exact ⟨h1, h2, rfl, h4, by simp [applyOp, h1], by simp [applyOp, h2],
    by simp [applyOp, makeExtraPayment], by simp [applyOp, h4]⟩

/-- C8 witness: a concrete non-positive amount is rejected with the alert text
and leaves a concrete ledger unchanged. -/
theorem C8_extra_payment_validation_witness :
    makeExtraPayment [] (AmountField.numeric (-1)) (DateField.dateValue 0) =
      Except.error "Please enter a valid amount" ∧
    applyOp [] (LedgerOp.extra (AmountField.numeric (-1))
      (DateField.dateValue 0)) = [] := by
  have h := C8_extra_payment_validation [] AmountField.fieldEmpty
    DateField.fieldEmpty (-1) 0 (by norm_num)
  exact ⟨h.2.2.2.1, h.2.2.2.2.2.2.2⟩

/-- C9: when the persistence write fails, both ledger-mutating operations
leave the in-memory rows (and hence every derived value) unchanged and
surface an error message. -/
theorem C9_persistence_failure (rows : List LoanPayment) (k : Nat)
    (a : AmountField) (d : DateField) :
    (markPaymentClearedWithDb rows k true).1 = rows ∧
    (markPaymentClearedWithDb rows k true).2 =
      some "Error marking payment as cleared" ∧
    (makeExtraPaymentWithDb rows a d true).1 = rows ∧
    ((makeExtraPaymentWithDb rows a d true).2).isSome = true ∧
    remainingBalanceOf (ledgerView (markPaymentClearedWithDb rows k true).1) =
      remainingBalanceOf (ledgerView rows) ∧
    remainingBalanceOf (ledgerView (makeExtraPaymentWithDb rows a d true).1) =
      remainingBalanceOf (ledgerView rows) := by
  have hmark : (markPaymentClearedWithDb rows k true).1 = rows := rfl
  have hextra : (makeExtraPaymentWithDb rows a d true).1 = rows ∧
      ((makeExtraPaymentWithDb rows a d true).2).isSome = true := by
    unfold makeExtraPaymentWithDb
    cases h : makeExtraPayment rows a d with
    | error msg => exact ⟨rfl, rfl⟩
    | ok rows2 => exact ⟨rfl, rfl⟩
  exact ⟨hmark, rfl, hextra.1, hextra.2, by rw [hmark], by rw [hextra.1]⟩

/-- C10: with a positive starting balance whose per-period interest the
payment strictly covers, the projection stops within `N` steps whenever `N`
margins `paymentAmount - startBalance * rate` cover the balance, and for any
larger period count it ends having reached balance exactly 0. -/
theorem C10_termination (startBalance : ℚ) (startDate : Int) (N : Nat)
    (h1 : 0 < startBalance)
    (h2 : startBalance * BIWEEKLY_RATE < PAYMENT_AMOUNT)
    (h3 : startBalance ≤ (N : ℚ) * (PAYMENT_AMOUNT - startBalance * BIWEEKLY_RATE)) :
    ∀ count : Nat, (calculateSchedule startBalance startDate count).length ≤ N ∧
      (N < count → ∃ e,
        (calculateSchedule startBalance startDate count).getLast? = some e ∧
          e.balance = 0) := by
  intro count
  have hlen : (calcGo startBalance startDate count).length ≤ N :=
    calcGo_length_bound startBalance h2 count N startBalance startDate le_rfl h3
  refine ⟨hlen, fun hc => ?_⟩
  have hlt : (calcGo startBalance startDate count).length < count :=
    lt_of_le_of_lt hlen hc
  rcases calcGo_early_term count startBalance startDate hlt with ⟨_, hle⟩ | h
  · linarith
  · exact h

/-- C10 witness: the actual loan pays off within 95 bi-weekly periods and a
100-period projection ends at balance exactly 0. -/
theorem C10_termination_witness :
    (calculateSchedule 22000 0 100).length ≤ 95 ∧
    ∃ e, (calculateSchedule 22000 0 100).getLast? = some e ∧ e.balance = 0 := by
  have h := C10_termination 22000 0 95 (by norm_num)
    (by norm_num [BIWEEKLY_RATE, ANNUAL_RATE, PAYMENT_AMOUNT])
    (by norm_num [BIWEEKLY_RATE, ANNUAL_RATE, PAYMENT_AMOUNT]) 100
  exact ⟨h.1, h.2 (by norm_num)⟩

end LifeTracker
